import Mathlib

/-
Shallow embedding of src/generate_audio.py (procedural audio-asset
generator: oscillators, ADSR envelope, six fixed recipes, normalization,
16-bit PCM serialization).  Machine floats are modelled by exact fields:
`Rat` where the computation is rational arithmetic (so statements are
decidable; every IEEE double is an exact rational) and `Real` where the
source evaluates transcendental functions (sin, exp).  An IEEE operation
whose result is non-finite (NaN or an infinity) is modelled by `Option`:
the one place this happens is the normalization expression dividing by a
zero peak.
-/

namespace GenerateAudio

/-- Python's `int(x)` on a float: truncation toward zero. -/
def pyInt {K : Type*} [LinearOrderedField K] [FloorRing K] (x : K) : ℤ :=
  if 0 ≤ x then ⌊x⌋ else ⌈x⌉

/-- The fixed sample rate of the script, `SAMPLE_RATE = 44100`. -/
def SAMPLE_RATE : ℕ := 44100

/-- The peak absolute value of a buffer, `np.max(np.abs(audio))` (the
generators only apply it to nonempty buffers, where the fold below agrees
with numpy's max because every `|x|` is nonnegative). -/
def peakAbs {K : Type*} [LinearOrderedField K] (l : List K) : K :=
  (l.map (fun x => |x|)).foldr max 0

/-- The normalization expression `audio / np.max(np.abs(audio)) * target`
appearing at the end of every generator.  When the peak is zero every
sample of the buffer is zero, so every quotient is the IEEE `0.0/0.0`,
i.e. NaN: that all-NaN buffer is modelled as `none`.  When the peak is
nonzero every sample is finite and the buffer is returned. -/
def normalize_step {K : Type*} [LinearOrderedField K]
    (audio : List K) (target : K) : Option (List K) :=
  if peakAbs audio = 0 then none
  else some (audio.map (fun x => x / peakAbs audio * target))

/-- Final step of `generate_halloween_bgm` (line 108): normalize to 0.7. -/
noncomputable def bgm_normalize (audio : List ℝ) : Option (List ℝ) :=
  normalize_step audio 0.7

/-- Final step of `generate_magic_shoot_sound` (line 130): normalize to 0.6. -/
noncomputable def shoot_normalize (audio : List ℝ) : Option (List ℝ) :=
  normalize_step audio 0.6

/-- Final step of `generate_explosion_sound` (line 152): normalize to 0.7. -/
noncomputable def explosion_normalize (audio : List ℝ) : Option (List ℝ) :=
  normalize_step audio 0.7

/-- Final step of `generate_damage_sound` (line 172): normalize to 0.6. -/
noncomputable def damage_normalize (audio : List ℝ) : Option (List ℝ) :=
  normalize_step audio 0.6

/-- Final step of `generate_powerup_sound` (line 195): normalize to 0.6. -/
noncomputable def powerup_normalize (audio : List ℝ) : Option (List ℝ) :=
  normalize_step audio 0.6

/-- Final step of `generate_gameover_sound` (line 225): normalize to 0.6. -/
noncomputable def gameover_normalize (audio : List ℝ) : Option (List ℝ) :=
  normalize_step audio 0.6

section PeakLemmas

variable {K : Type*} [LinearOrderedField K]

lemma peakAbs_nonneg (l : List K) : 0 ≤ peakAbs l := by
  induction l with
  | nil => simp [peakAbs]
  | cons x xs ih =>
      simp only [peakAbs, List.map_cons, List.foldr_cons] at ih ⊢
      exact le_max_of_le_right ih

lemma abs_le_peakAbs {l : List K} {x : K} (hx : x ∈ l) : |x| ≤ peakAbs l := by
  induction l with
  | nil => simp at hx
  | cons y ys ih =>
      simp only [peakAbs, List.map_cons, List.foldr_cons]
      rcases List.mem_cons.mp hx with h | h
      · exact h ▸ le_max_left _ _
      · exact le_max_of_le_right (ih h)

lemma peakAbs_map_mul_right (l : List K) {k : K} (hk : 0 ≤ k) :
    peakAbs (l.map (fun x => x * k)) = peakAbs l * k := by
  induction l with
  | nil => simp [peakAbs]
  | cons x xs ih =>
      simp only [peakAbs, List.map_cons, List.foldr_cons] at ih ⊢
      rw [ih, abs_mul, abs_of_nonneg hk, max_mul_of_nonneg _ _ hk]

/-- Peak of the normalized buffer: dividing by a nonzero peak and scaling by
a nonnegative target yields a buffer of peak exactly the target. -/
lemma peakAbs_normalize {l : List K} {c : K}
    (hp : peakAbs l ≠ 0) (hc : 0 ≤ c) :
    peakAbs (l.map (fun x => x / peakAbs l * c)) = c := by
  have hppos : 0 < peakAbs l := lt_of_le_of_ne (peakAbs_nonneg l) (Ne.symm hp)
  have hfun : (fun x : K => x / peakAbs l * c) = fun x : K => x * (c / peakAbs l) := by
    funext x
    field_simp
  rw [hfun, peakAbs_map_mul_right _ (div_nonneg hc hppos.le)]
  field_simp

lemma peakAbs_eq_zero_of_all_zero {l : List K} (h : ∀ x ∈ l, x = 0) :
    peakAbs l = 0 := by
  induction l with
  | nil => simp [peakAbs]
  | cons x xs ih =>
      have hxs := ih (fun y hy => h y (List.mem_cons_of_mem _ hy))
      simp only [peakAbs, List.map_cons, List.foldr_cons] at hxs ⊢
      rw [h x (List.mem_cons_self x xs), hxs]
      simp

end PeakLemmas

/-- C1 counterexample: normalizing the all-zero buffer `[0, 0, 0]` does not
return the all-zero buffer — the division `0.0/0.0` makes every sample NaN
(modelled `none`), because the code has no zero-peak guard. -/
theorem normalize_all_zero_counterexample :
    normalize_step [(0 : ℚ), 0, 0] (7/10) = none ∧
      normalize_step [(0 : ℚ), 0, 0] (7/10) ≠ some [0, 0, 0] := by
  constructor
  · decide
  · decide

/-- C1 (amended): for every nonempty all-zero buffer reaching the
normalization step, the division by the zero peak produces a NaN in every
sample (`none`): the code does not return the all-zero buffer unchanged,
having no guard for a zero peak. -/
theorem normalize_all_zero_gives_nan (buf : List ℝ) (c : ℝ)
    (h : ∀ x ∈ buf, x = 0) :
    normalize_step buf c = none := by
  unfold normalize_step
  rw [if_pos (peakAbs_eq_zero_of_all_zero h)]

/-- Witness for the amended C1 at the concrete buffer `[0, 0, 0]`. -/
theorem normalize_all_zero_witness :
    (∀ x ∈ [(0 : ℝ), 0, 0], x = 0) ∧
      normalize_step [(0 : ℝ), 0, 0] (7/10) = none :=
  ⟨by simp, normalize_all_zero_gives_nan [(0 : ℝ), 0, 0] (7/10) (by simp)⟩

/-- C2: for every non-silent buffer and nonnegative target ceiling the
normalization step succeeds and yields a buffer whose peak absolute value
equals the ceiling exactly; in particular the final normalization of each
of the six generators pins the finished buffer's peak to its per-asset
target: 0.7 for the background loop and the explosion, 0.6 for shoot,
damage, powerup and game-over. -/
theorem normalize_peak_eq_target (buf : List ℝ) (c : ℝ)
    (hp : peakAbs buf ≠ 0) (hc : 0 ≤ c) :
    (∃ out, normalize_step buf c = some out ∧ peakAbs out = c) ∧
    (∃ o, bgm_normalize buf = some o ∧ peakAbs o = 0.7) ∧
    (∃ o, shoot_normalize buf = some o ∧ peakAbs o = 0.6) ∧
    (∃ o, explosion_normalize buf = some o ∧ peakAbs o = 0.7) ∧
    (∃ o, damage_normalize buf = some o ∧ peakAbs o = 0.6) ∧
    (∃ o, powerup_normalize buf = some o ∧ peakAbs o = 0.6) ∧
    (∃ o, gameover_normalize buf = some o ∧ peakAbs o = 0.6) := by
  have base : ∀ t : ℝ, 0 ≤ t →
      ∃ out, normalize_step buf t = some out ∧ peakAbs out = t := by
    intro t ht
    refine ⟨buf.map (fun x => x / peakAbs buf * t), ?_, peakAbs_normalize hp ht⟩
    unfold normalize_step
    rw [if_neg hp]
  exact ⟨base c hc, base 0.7 (by norm_num), base 0.6 (by norm_num),
    base 0.7 (by norm_num), base 0.6 (by norm_num), base 0.6 (by norm_num),
    base 0.6 (by norm_num)⟩

/-- Witness for C2 at the concrete non-silent buffer `[1]` and target 0.7. -/
theorem normalize_peak_eq_target_witness :
    (peakAbs [(1 : ℝ)] ≠ 0 ∧ (0 : ℝ) ≤ 7/10) ∧
      (∃ out, normalize_step [(1 : ℝ)] (7/10) = some out ∧ peakAbs out = 7/10) :=
  have hp : peakAbs [(1 : ℝ)] ≠ 0 := by
    simp [peakAbs]
  ⟨⟨hp, by norm_num⟩,
    by simpa using (normalize_peak_eq_target [(1 : ℝ)] (7/10) hp (by norm_num)).1⟩

/-- numpy's `int16` wraparound: casting an integer into the range
`[-2^15, 2^15)`. -/
def int16Wrap (n : ℤ) : ℤ := (n + 2 ^ 15) % 2 ^ 16 - 2 ^ 15

/-- `save_wav`'s quantization `(audio * 32767).astype(np.int16)` (lines
229-233): each float sample is multiplied by 32767 and C-cast to a 16-bit
integer, which truncates toward zero (and wraps out-of-range values). -/
def save_wav_int16 {K : Type*} [LinearOrderedField K] [FloorRing K]
    (audio : List K) : List ℤ :=
  audio.map (fun x => int16Wrap (pyInt (x * 32767)))

/-- C3 counterexample: the serializer maps the sample 0.5 to
`trunc(16383.5) = 16383`, while `round(0.5 * 32767) = 16384`: the
float-to-integer mapping is truncation, not rounding to nearest. -/
theorem save_wav_round_counterexample :
    save_wav_int16 [(1 : ℚ)/2] = [16383] ∧
      round ((1 : ℚ)/2 * 32767) = 16384 ∧
      save_wav_int16 [(1 : ℚ)/2] ≠ [round ((1 : ℚ)/2 * 32767)] := by
  have h1 : save_wav_int16 [(1 : ℚ)/2] = [16383] := by
    simp only [save_wav_int16, List.map_cons, List.map_nil, pyInt, int16Wrap]
    rw [if_pos (by norm_num)]
    norm_num
  have h2 : round ((1 : ℚ)/2 * 32767) = 16384 := by
    norm_num [round_eq]
  exact ⟨h1, h2, by rw [h1, h2]; simp⟩

/-- C3 (amended): for every buffer of samples within `[-1, 1]`, each output
sample of the serializer is `sample * 32767` truncated toward zero — the
unique integer of magnitude at most `|sample * 32767|` and within distance
one of it, with the int16 wraparound never firing in that range.  (It is
not `round(sample * 32767)`: 0.5 maps to 16383, not 16384.) -/
theorem save_wav_trunc (audio : List ℚ) (h : ∀ x ∈ audio, |x| ≤ 1) :
    (save_wav_int16 audio).length = audio.length ∧
    ∀ i, i < audio.length →
      (save_wav_int16 audio).getD i 0 = pyInt (audio.getD i 0 * 32767) ∧
      |((pyInt (audio.getD i 0 * 32767) : ℤ) : ℚ)| ≤ |audio.getD i 0 * 32767| ∧
      |audio.getD i 0 * 32767| < |((pyInt (audio.getD i 0 * 32767) : ℤ) : ℚ)| + 1 := by
  constructor
  · simp [save_wav_int16]
  intro i hi
  set x : ℚ := audio.getD i 0 with hx
  have hxmem : x ∈ audio := by
    rw [hx, List.getD_eq_getElem _ _ hi]
    exact List.getElem_mem hi
  have hxabs : |x| ≤ 1 := h x hxmem
  have htr : |((pyInt (x * 32767) : ℤ) : ℚ)| ≤ |x * 32767| ∧
      |x * 32767| < |((pyInt (x * 32767) : ℤ) : ℚ)| + 1 := by
    unfold pyInt
    by_cases hp : (0 : ℚ) ≤ x * 32767
    · rw [if_pos hp]
      have h1 : ((⌊x * 32767⌋ : ℤ) : ℚ) ≤ x * 32767 := Int.floor_le _
      have h2 : x * 32767 < ((⌊x * 32767⌋ : ℤ) : ℚ) + 1 := Int.lt_floor_add_one _
      have h0 : (0 : ℚ) ≤ ((⌊x * 32767⌋ : ℤ) : ℚ) := by
        exact_mod_cast Int.floor_nonneg.mpr hp
      rw [abs_of_nonneg hp, abs_of_nonneg h0]
      exact ⟨h1, h2⟩
    · rw [if_neg hp]
      push_neg at hp
      have h1 : x * 32767 ≤ ((⌈x * 32767⌉ : ℤ) : ℚ) := Int.le_ceil _
      have h2 : ((⌈x * 32767⌉ : ℤ) : ℚ) - 1 < x * 32767 := by
        have := Int.ceil_lt_add_one (x * 32767)
        linarith
      have h0 : ((⌈x * 32767⌉ : ℤ) : ℚ) ≤ 0 := by
        have : ⌈x * 32767⌉ ≤ (0 : ℤ) := Int.ceil_le.mpr (by exact_mod_cast hp.le)
        exact_mod_cast this
      rw [abs_of_neg hp, abs_of_nonpos h0]
      constructor <;> linarith
  have hrange : -(2 ^ 15) ≤ pyInt (x * 32767) ∧ pyInt (x * 32767) < 2 ^ 15 := by
    have hub : |x * 32767| ≤ 32767 := by
      rw [abs_mul]
      calc |x| * |(32767 : ℚ)| ≤ 1 * |(32767 : ℚ)| := by
            apply mul_le_mul_of_nonneg_right hxabs (abs_nonneg _)
        _ = 32767 := by norm_num
    have habs : |((pyInt (x * 32767) : ℤ) : ℚ)| ≤ 32767 := le_trans htr.1 hub
    rw [abs_le] at habs
    constructor
    · have : (-(2 ^ 15) : ℚ) ≤ ((pyInt (x * 32767) : ℤ) : ℚ) := by
        calc (-(2 ^ 15) : ℚ) ≤ -32767 := by norm_num
          _ ≤ _ := habs.1
      exact_mod_cast this
    · have : ((pyInt (x * 32767) : ℤ) : ℚ) < 2 ^ 15 := by
        calc ((pyInt (x * 32767) : ℤ) : ℚ) ≤ 32767 := habs.2
          _ < 2 ^ 15 := by norm_num
      exact_mod_cast this
  have hwrap : int16Wrap (pyInt (x * 32767)) = pyInt (x * 32767) := by
    unfold int16Wrap
    have h1 : 0 ≤ pyInt (x * 32767) + 2 ^ 15 := by linarith [hrange.1]
    have h2 : pyInt (x * 32767) + 2 ^ 15 < 2 ^ 16 := by linarith [hrange.2]
    rw [Int.emod_eq_of_lt h1 h2]
    ring
  refine ⟨?_, htr.1, htr.2⟩
  have : (save_wav_int16 audio).getD i 0 = int16Wrap (pyInt (x * 32767)) := by
    have hlen : i < (save_wav_int16 audio).length := by
      simpa [save_wav_int16] using hi
    rw [List.getD_eq_getElem _ _ hlen]
    simp only [save_wav_int16, List.getElem_map]
    rw [hx, List.getD_eq_getElem _ _ hi]
  rw [this, hwrap]

/-- Witness for the amended C3 at the one-sample buffer `[1/2]`. -/
theorem save_wav_trunc_witness :
    (∀ x ∈ [(1 : ℚ)/2], |x| ≤ 1) ∧
      ((save_wav_int16 [(1 : ℚ)/2]).length = 1 ∧
        ∀ i, i < ([(1 : ℚ)/2] : List ℚ).length →
          (save_wav_int16 [(1 : ℚ)/2]).getD i 0 =
              pyInt (([(1 : ℚ)/2].getD i 0) * 32767) ∧
          |((pyInt (([(1 : ℚ)/2].getD i 0) * 32767) : ℤ) : ℚ)| ≤
              |([(1 : ℚ)/2].getD i 0) * 32767| ∧
          |([(1 : ℚ)/2].getD i 0) * 32767| <
              |((pyInt (([(1 : ℚ)/2].getD i 0) * 32767) : ℤ) : ℚ)| + 1) :=
  have hb : ∀ x ∈ [(1 : ℚ)/2], |x| ≤ 1 := by
    intro x hx
    rw [List.mem_singleton.mp hx]
    rw [abs_of_nonneg (by norm_num : (0 : ℚ) ≤ 1/2)]
    norm_num
  ⟨hb, save_wav_trunc [(1 : ℚ)/2] hb⟩

/-- The note-placement step of `generate_halloween_bgm`'s melody and bass
loops (lines 81-84 and 92-95): `start = int(time_pos * SAMPLE_RATE)`,
`end = start + len(note)`, and the note is added into `audio[start:end]`
only when `end <= len(audio)`; otherwise the buffer is left unchanged. -/
def mix_note {K : Type*} [LinearOrderedField K]
    (audio : List K) (start : ℕ) (note : List K) : List K :=
  if start + note.length ≤ audio.length then
    audio.take start ++
      List.zipWith (· + ·) ((audio.drop start).take note.length) note ++
      audio.drop (start + note.length)
  else audio

/-- The `(start, raw end)` sample positions a recipe's sequential note loop
computes: `start = int(time_pos * SAMPLE_RATE)`,
`raw end = int((time_pos + dur) * SAMPLE_RATE)`, with `time_pos`
accumulating the durations (as in `generate_gameover_sound`, lines
209-222, before its clamp `if end > len(audio): end = len(audio)`). -/
def noteSpans : List (ℚ × ℚ) → ℚ → List (ℕ × ℕ)
  | [], _ => []
  | (_, dur) :: rest, tp =>
      ((pyInt (tp * 44100)).toNat, (pyInt ((tp + dur) * 44100)).toNat) ::
        noteSpans rest (tp + dur)

/-- The fixed note list of `generate_gameover_sound` (line 207). -/
def gameover_notes : List (ℚ × ℚ) := [(392, 0.3), (349, 0.3), (330, 0.3), (294, 0.6)]

/-- `len(audio)` in `generate_gameover_sound`: `int(SAMPLE_RATE * 1.5)`. -/
def gameover_length : ℕ := (pyInt ((44100 : ℚ) * 1.5)).toNat

/-- The four `(start, raw end)` spans of `generate_gameover_sound`. -/
def gameover_spans : List (ℕ × ℕ) := noteSpans gameover_notes 0

/-- `len(audio)` in `generate_powerup_sound`: `int(SAMPLE_RATE * 0.4)`. -/
def powerup_length : ℕ := (pyInt ((44100 : ℚ) * 0.4)).toNat

/-- The four `(start, end)` slice bounds of `generate_powerup_sound`'s
arpeggio loop (lines 187-189): `start = int(i * note_duration * 44100)`,
`end = int((i+1) * note_duration * 44100)` with `note_duration = 0.4/4`. -/
def powerup_spans : List (ℕ × ℕ) :=
  (List.range 4).map fun i =>
    ((pyInt ((i : ℚ) * (0.4 / 4) * 44100)).toNat,
     (pyInt (((i : ℚ) + 1) * (0.4 / 4) * 44100)).toNat)

/-- C4: a placed component that would extend past the output buffer's end
is dropped whole by the background-loop mixer — the output is unchanged —
and in the remaining recipes that place components into a fixed-length
buffer (game-over, powerup) every computed placement ends at or before the
buffer's end, so no component is ever truncated: the game-over clamp
`if end > len(audio)` never fires on its fixed note list. -/
theorem mix_drop_policy :
    (∀ (audio note : List ℝ) (start : ℕ),
        audio.length < start + note.length → mix_note audio start note = audio) ∧
    (∀ se ∈ gameover_spans, se.2 ≤ gameover_length) ∧
    (∀ se ∈ powerup_spans, se.2 ≤ powerup_length) := by
  refine ⟨?_, ?_, ?_⟩
  · intro audio note start h
    unfold mix_note
    rw [if_neg (by omega)]
  · have hg : gameover_spans = [(0, 13230), (13230, 26460), (26460, 39690), (39690, 66150)] := by
      simp only [gameover_spans, gameover_notes, noteSpans]
      norm_num [pyInt]
      omega
    have hlen : gameover_length = 66150 := by
      simp only [gameover_length, pyInt]
      norm_num
      omega
    intro se hse
    rw [hg] at hse
    rw [hlen]
    fin_cases hse <;> norm_num
  · have hp : powerup_spans = [(0, 4410), (4410, 8820), (8820, 13230), (13230, 17640)] := by
      simp only [powerup_spans, List.range_succ, List.range_zero, List.map_cons,
        List.map_nil, List.nil_append, List.cons_append]
      norm_num [pyInt]
      omega
    have hlen : powerup_length = 17640 := by
      simp only [powerup_length, pyInt]
      norm_num
      omega
    intro se hse
    rw [hp] at hse
    rw [hlen]
    fin_cases hse <;> norm_num

/-- Witness for C4: a concrete overflowing placement into `[1]` at offset 1
is dropped whole. -/
theorem mix_drop_policy_witness :
    (List.length [(1 : ℝ)] < 1 + List.length [(2 : ℝ)]) ∧
      mix_note [(1 : ℝ)] 1 [(2 : ℝ)] = [(1 : ℝ)] :=
  ⟨by simp, mix_drop_policy.1 [(1 : ℝ)] [(2 : ℝ)] 1 (by simp)⟩

/-- `np.linspace(p, q, n)` with the default inclusive endpoint, as used by
`apply_envelope`: `n` evenly spaced values from `p` to `q`; for `n = 1`
numpy returns `[p]`. -/
def linspaceT {K : Type*} [LinearOrderedField K] (p q : K) (n : ℕ) : List K :=
  if n = 0 then []
  else if n = 1 then [p]
  else (List.range n).map fun i : ℕ => p + (q - p) * (i : K) / ((n : K) - 1)

/-- The value of the `n`-sample inclusive ramp from `p` to `q` at index `i`
(the entries of `linspaceT p q n`). -/
def rampAt {K : Type*} [LinearOrderedField K] (p q : K) (n i : ℕ) : K :=
  if n ≤ 1 then p else p + (q - p) * i / ((n : K) - 1)

/-- numpy slice assignment `env[i:j] = vals` for a 1-d array: the bounds are
clipped to the array, and the assignment succeeds exactly when `vals` has
the clipped slice's length (otherwise numpy raises a shape-mismatch
error, modelled `none`). -/
def sliceAssign {K : Type*} (env : List K) (i j : ℕ) (vals : List K) : Option (List K) :=
  let iq := min i env.length
  let jq := max iq (min j env.length)
  if vals.length = jq - iq then some (env.take iq ++ vals ++ env.drop jq)
  else none

/-- numpy slice assignment `env[i:j] = c` of a scalar: the scalar broadcasts
over the clipped slice, so this never fails. -/
def fillSlice {K : Type*} (env : List K) (i j : ℕ) (c : K) : List K :=
  let iq := min i env.length
  let jq := max iq (min j env.length)
  env.take iq ++ List.replicate (jq - iq) c ++ env.drop jq

/-- A stage duration in samples, `int(x * SAMPLE_RATE)` (lines 36-38). -/
def durSamples {K : Type*} [LinearOrderedField K] [FloorRing K] (x : K) : ℕ :=
  (pyInt (x * (SAMPLE_RATE : K))).toNat

/-- `apply_envelope(audio, attack, decay, sustain, release)` (lines 31-54):
the envelope array starts as all ones; attack/decay/release durations are
truncated to sample counts; `sustain_samples = length - a - de - r` is
clamped at zero (truncated ℕ subtraction below); then in order the attack
ramp, the decay ramp, the constant sustain block and — when
`release_samples > 0` — the release ramp `envelope[-release_samples:]`
are written, and the input is multiplied elementwise by the envelope.
The numpy slice assignments fail (`none`) when a ramp's length does not
match its clipped slice.  The model covers the source's nonnegative stage
durations. -/
def apply_envelope {K : Type*} [LinearOrderedField K] [FloorRing K] (audio : List K)
    (attack : K := 0.01) (decay : K := 0.1) (sustain : K := 0.7) (release : K := 0.1) :
    Option (List K) :=
  let length := audio.length
  let attack_samples := durSamples attack
  let decay_samples := durSamples decay
  let release_samples := durSamples release
  let sustain_samples := length - attack_samples - decay_samples - release_samples
  (sliceAssign (List.replicate length (1 : K)) 0 attack_samples
      (linspaceT 0 1 attack_samples)).bind fun env1 =>
    (sliceAssign env1 attack_samples (attack_samples + decay_samples)
        (linspaceT 1 sustain decay_samples)).bind fun env2 =>
      let env3 := fillSlice env2 (attack_samples + decay_samples)
        (attack_samples + decay_samples + sustain_samples) sustain
      if 0 < release_samples then
        (sliceAssign env3 (length - release_samples) length
            (linspaceT sustain 0 release_samples)).map fun env4 =>
          List.zipWith (· * ·) audio env4
      else some (List.zipWith (· * ·) audio env3)

/-- The multiplier curve as the specification describes it, by index: the
final `r` samples (measured backward from the end, written last) carry the
release ramp sustain→0; below them the attack ramp 0→1 on `[0, a)`, the
decay ramp 1→sustain on `[a, a+de)`, and the constant sustain on
`[a+de, a+de+s)` with `s = max(0, L-a-de-r)`; indices covered by no
segment keep the initial value 1 (unreachable when the stage counts fit
the buffer). -/
def envSpecCurve {K : Type*} [LinearOrderedField K] (L a de r : ℕ) (sustain : K)
    (i : ℕ) : K :=
  if 0 < r ∧ L - r ≤ i then rampAt sustain 0 r (i - (L - r))
  else if i < a then rampAt 0 1 a i
  else if i < a + de then rampAt 1 sustain de (i - a)
  else if i < a + de + (L - a - de - r) then sustain
  else 1

section EnvelopeLemmas

variable {K : Type*} [LinearOrderedField K]

lemma linspaceT_length (p q : K) (n : ℕ) : (linspaceT p q n).length = n := by
  unfold linspaceT
  by_cases h0 : n = 0
  · simp [h0]
  by_cases h1 : n = 1
  · simp [h0, h1]
  · simp [h0, h1]

lemma linspaceT_getD (p q : K) {n i : ℕ} (h : i < n) :
    (linspaceT p q n).getD i 0 = rampAt p q n i := by
  unfold linspaceT rampAt
  by_cases h0 : n = 0
  · omega
  by_cases h1 : n = 1
  · have hi : i = 0 := by omega
    simp [h0, h1, hi]
  · have hn : ¬ n ≤ 1 := by omega
    have hlen : i < ((List.range n).map
        fun i : ℕ => p + (q - p) * (i : K) / ((n : K) - 1)).length := by
      simpa using h
    rw [if_neg h0, if_neg h1, if_neg hn, List.getD_eq_getElem _ _ hlen]
    simp

lemma getD_patch (env vals : List K) (i j k : ℕ)
    (hj : j ≤ env.length) (hij : i ≤ j) (hv : vals.length = j - i) :
    (env.take i ++ vals ++ env.drop j).getD k 0 =
      if i ≤ k ∧ k < j then vals.getD (k - i) 0 else env.getD k 0 := by
  have hi : i ≤ env.length := le_trans hij hj
  have htl : (env.take i).length = i := by
    simp [List.length_take]
    omega
  rcases Nat.lt_or_ge k i with hk | hk
  · rw [if_neg (by omega)]
    rw [List.append_assoc, List.getD_append _ _ _ _ (by omega)]
    rcases Nat.lt_or_ge k env.length with hkl | hkl
    · rw [List.getD_eq_getD_get?, List.getD_eq_getD_get?, List.get?_take hk]
    · omega
  · rw [List.append_assoc, List.getD_append_right _ _ _ _ (by omega), htl]
    rcases Nat.lt_or_ge k j with hkj | hkj
    · rw [if_pos ⟨hk, hkj⟩]
      rw [List.getD_append _ _ _ _ (by omega)]
    · rw [if_neg (by omega)]
      rw [List.getD_append_right _ _ _ _ (by omega), hv]
      rcases Nat.lt_or_ge k env.length with hkl | hkl
      · have hd : k - i - (j - i) < (env.drop j).length := by
          simp [List.length_drop]
          omega
        rw [List.getD_eq_getElem _ _ hd, List.getElem_drop,
          List.getD_eq_getElem _ _ hkl]
        congr 1
        omega
      · rw [List.getD_eq_default, List.getD_eq_default _ _ hkl]
        simp [List.length_drop]
        omega

lemma sliceAssign_eq_some (env vals : List K) (i j : ℕ)
    (hj : j ≤ env.length) (hij : i ≤ j) (hv : vals.length = j - i) :
    sliceAssign env i j vals = some (env.take i ++ vals ++ env.drop j) := by
  simp only [sliceAssign]
  have hi : i ≤ env.length := le_trans hij hj
  have h2 : min i env.length ⊔ min j env.length = j := by omega
  have h1 : min i env.length = i := by omega
  rw [h2, h1, if_pos hv]

lemma sliceAssign_eq_none (env vals : List K) (i j : ℕ)
    (h : vals.length ≠ max (min i env.length) (min j env.length) - min i env.length) :
    sliceAssign env i j vals = none := by
  unfold sliceAssign
  rw [if_neg h]

lemma fillSlice_eq (env : List K) (c : K) (i j : ℕ)
    (hj : j ≤ env.length) (hij : i ≤ j) :
    fillSlice env i j c = env.take i ++ List.replicate (j - i) c ++ env.drop j := by
  simp only [fillSlice]
  have hi : i ≤ env.length := le_trans hij hj
  have h2 : min i env.length ⊔ min j env.length = j := by omega
  have h1 : min i env.length = i := by omega
  rw [h2, h1]

lemma patch_length (env vals : List K) (i j : ℕ)
    (hj : j ≤ env.length) (hij : i ≤ j) (hv : vals.length = j - i) :
    (env.take i ++ vals ++ env.drop j).length = env.length := by
  simp [List.length_take, List.length_drop]
  omega

end EnvelopeLemmas

section EnvelopeSpec

variable {K : Type*} [LinearOrderedField K] [FloorRing K]

lemma envSpecCurve_release {L a de r : ℕ} {sustain : K} {k : ℕ}
    (h0 : 0 < r) (h : L - r ≤ k) :
    envSpecCurve L a de r sustain k = rampAt sustain 0 r (k - (L - r)) := by
  unfold envSpecCurve
  rw [if_pos ⟨h0, h⟩]

lemma envSpecCurve_of_not_release {L a de r : ℕ} {sustain : K} {k : ℕ}
    (h : ¬(0 < r ∧ L - r ≤ k)) :
    envSpecCurve L a de r sustain k =
      if k < a then rampAt 0 1 a k
      else if k < a + de then rampAt 1 sustain de (k - a)
      else if k < a + de + (L - a - de - r) then sustain
      else 1 := by
  unfold envSpecCurve
  rw [if_neg h]

lemma zipWith_mul_eq_map_range (audio E : List K) (g : ℕ → K)
    (hlen : E.length = audio.length)
    (hE : ∀ k, k < audio.length → E.getD k 0 = g k) :
    List.zipWith (· * ·) audio E =
      (List.range audio.length).map fun k => audio.getD k 0 * g k := by
  apply List.ext_getElem
  · simp [hlen]
  · intro k h1 h2
    have hk : k < audio.length := by simpa using h2
    have hkE : k < E.length := by omega
    rw [List.getElem_zipWith, List.getElem_map, List.getElem_range,
      ← List.getD_eq_getElem audio 0 hk, ← List.getD_eq_getElem E 0 hkE, hE k hk]

/-- Pointwise description of a successful `apply_envelope` run: when the
attack, attack+decay and release sample counts all fit in the buffer, the
call returns the elementwise product of the input with the four-segment
curve `envSpecCurve`. -/
lemma apply_envelope_eq (audio : List K) (attack decay sustain release : K)
    (hA : durSamples attack ≤ audio.length)
    (hAD : durSamples attack + durSamples decay ≤ audio.length)
    (hR : durSamples release ≤ audio.length) :
    apply_envelope audio attack decay sustain release =
      some ((List.range audio.length).map fun k =>
        audio.getD k 0 * envSpecCurve audio.length (durSamples attack)
          (durSamples decay) (durSamples release) sustain k) := by
  simp only [apply_envelope]
  set L := audio.length with hL
  set a := durSamples attack with ha
  set de := durSamples decay with hde
  set r := durSamples release with hr
  set s := L - a - de - r with hs
  have e1eq : sliceAssign (List.replicate L (1 : K)) 0 a (linspaceT 0 1 a) =
      some ((List.replicate L (1 : K)).take 0 ++ linspaceT 0 1 a ++
        (List.replicate L (1 : K)).drop a) :=
    sliceAssign_eq_some _ _ 0 a (by simpa using hA) (Nat.zero_le a)
      (by rw [linspaceT_length]; omega)
  set e1 : List K := (List.replicate L (1 : K)).take 0 ++ linspaceT 0 1 a ++
    (List.replicate L (1 : K)).drop a with he1
  have he1len : e1.length = L := by
    rw [he1, patch_length _ _ _ _ (by simpa using hA) (Nat.zero_le a)
      (by rw [linspaceT_length]; omega)]
    simp
  have e2eq : sliceAssign e1 a (a + de) (linspaceT 1 sustain de) =
      some (e1.take a ++ linspaceT 1 sustain de ++ e1.drop (a + de)) :=
    sliceAssign_eq_some _ _ a (a + de) (by omega) (by omega)
      (by rw [linspaceT_length]; omega)
  set e2 : List K := e1.take a ++ linspaceT 1 sustain de ++ e1.drop (a + de) with he2
  have he2len : e2.length = L := by
    rw [he2, patch_length _ _ _ _ (by omega) (by omega)
      (by rw [linspaceT_length]; omega), he1len]
  have e3eq : fillSlice e2 (a + de) (a + de + s) sustain =
      e2.take (a + de) ++ List.replicate s sustain ++ e2.drop (a + de + s) := by
    rw [fillSlice_eq _ _ _ _ (by omega) (by omega),
      (by omega : a + de + s - (a + de) = s)]
  set e3 : List K := e2.take (a + de) ++ List.replicate s sustain ++
    e2.drop (a + de + s) with he3
  have he3len : e3.length = L := by
    rw [he3, patch_length _ _ _ _ (by omega) (by omega)
      (by rw [List.length_replicate]; omega), he2len]
  have he3val : ∀ k, k < L → e3.getD k 0 =
      (if k < a then rampAt 0 1 a k
       else if k < a + de then rampAt 1 sustain de (k - a)
       else if k < a + de + s then sustain
       else 1) := by
    intro k hk
    rw [he3, getD_patch _ _ _ _ _ (by omega) (by omega)
      (by rw [List.length_replicate]; omega)]
    rw [he2, getD_patch _ _ _ _ _ (by omega) (by omega)
      (by rw [linspaceT_length]; omega)]
    rw [he1, getD_patch _ _ _ _ _ (by simpa using hA) (Nat.zero_le a)
      (by rw [linspaceT_length]; omega)]
    by_cases h1 : k < a
    · rw [if_neg (by omega), if_neg (by omega),
        if_pos (show 0 ≤ k ∧ k < a from ⟨Nat.zero_le k, h1⟩),
        if_pos h1, linspaceT_getD _ _ (by omega)]
      simp
    by_cases h2 : k < a + de
    · rw [if_neg (by omega), if_pos (show a ≤ k ∧ k < a + de by omega),
        if_neg h1, if_pos h2, linspaceT_getD _ _ (by omega)]
    by_cases h3 : k < a + de + s
    · rw [if_pos (show a + de ≤ k ∧ k < a + de + s by omega),
        if_neg h1, if_neg h2, if_pos h3,
        List.getD_eq_getElem _ _ (by rw [List.length_replicate]; omega),
        List.getElem_replicate]
    · rw [if_neg (by omega), if_neg (by omega), if_neg (by omega),
        if_neg h1, if_neg h2, if_neg h3,
        List.getD_eq_getElem _ _ (by rw [List.length_replicate]; omega),
        List.getElem_replicate]
  rw [e1eq, Option.some_bind, e2eq, Option.some_bind, e3eq]
  by_cases hrel : 0 < r
  · have e4eq : sliceAssign e3 (L - r) L (linspaceT sustain 0 r) =
        some (e3.take (L - r) ++ linspaceT sustain 0 r ++ e3.drop L) :=
      sliceAssign_eq_some _ _ (L - r) L (by omega) (by omega)
        (by rw [linspaceT_length]; omega)
    set e4 : List K := e3.take (L - r) ++ linspaceT sustain 0 r ++ e3.drop L with he4
    have he4len : e4.length = L := by
      rw [he4, patch_length _ _ _ _ (by omega) (by omega)
        (by rw [linspaceT_length]; omega), he3len]
    rw [if_pos hrel, e4eq, Option.map_some']
    congr 1
    apply zipWith_mul_eq_map_range _ _ _ (by rw [he4len])
    intro k hk
    have hkL : k < L := hk
    rw [he4, getD_patch _ _ _ _ _ (by omega) (by omega)
      (by rw [linspaceT_length]; omega)]
    by_cases hlr : L - r ≤ k
    · rw [if_pos (show L - r ≤ k ∧ k < L by omega),
        envSpecCurve_release hrel hlr, linspaceT_getD _ _ (by omega)]
    · rw [if_neg (by omega), he3val k hkL,
        envSpecCurve_of_not_release (by omega), ← hs]
  · rw [if_neg hrel]
    congr 1
    apply zipWith_mul_eq_map_range _ _ _ (by rw [he3len])
    intro k hk
    have hkL : k < L := hk
    rw [he3val k hkL, envSpecCurve_of_not_release (by omega), ← hs]

lemma fillSlice_length (env : List K) (i j : ℕ) (c : K) :
    (fillSlice env i j c).length = env.length := by
  simp only [fillSlice]
  simp [List.length_take, List.length_drop]
  omega

/-- A stage that does not fit the buffer makes one of the numpy ramp
assignments a shape mismatch, so `apply_envelope` fails. -/
lemma apply_envelope_eq_none (audio : List K) (attack decay sustain release : K)
    (h : audio.length < durSamples attack ∨
         audio.length < durSamples attack + durSamples decay ∨
         audio.length < durSamples release) :
    apply_envelope audio attack decay sustain release = none := by
  simp only [apply_envelope]
  set L := audio.length with hL
  set a := durSamples attack with ha
  set de := durSamples decay with hde
  set r := durSamples release with hr
  by_cases h1 : L < a
  · rw [sliceAssign_eq_none _ _ _ _
      (by rw [linspaceT_length]; simp only [List.length_replicate]; omega)]
    rfl
  · have e1eq := sliceAssign_eq_some (List.replicate L (1 : K)) (linspaceT 0 1 a) 0 a
      (by rw [List.length_replicate]; omega) (Nat.zero_le a)
      (by rw [linspaceT_length]; omega)
    rw [e1eq, Option.some_bind]
    have he1len : ((List.replicate L (1 : K)).take 0 ++ linspaceT 0 1 a ++
        (List.replicate L (1 : K)).drop a).length = L := by
      rw [patch_length _ _ _ _ (by rw [List.length_replicate]; omega) (Nat.zero_le a)
        (by rw [linspaceT_length]; omega), List.length_replicate]
    by_cases h2 : L < a + de
    · rw [sliceAssign_eq_none _ _ _ _
        (by rw [linspaceT_length, he1len]; omega)]
      rfl
    · have h3 : L < r := by
        rcases h with h | h | h
        · omega
        · omega
        · omega
      have e2eq := sliceAssign_eq_some _ (linspaceT 1 sustain de) a (a + de)
        (by rw [he1len]; omega) (by omega) (by rw [linspaceT_length]; omega)
      rw [e2eq, Option.some_bind]
      rw [if_pos (by omega : 0 < r)]
      rw [sliceAssign_eq_none _ _ _ _ ?_]
      · rfl
      · rw [linspaceT_length, fillSlice_length,
          patch_length _ _ _ _ (by rw [he1len]; omega) (by omega)
            (by rw [linspaceT_length]; omega), he1len]
        omega

end EnvelopeSpec

/-- C6: `apply_envelope` converts the attack, decay and release durations
to sample counts by truncation, clamps the sustain sample count at
`s = max(0, L - a - de - r)`, and — whenever the attack, attack+decay and
release counts fit in the buffer — returns the elementwise product of the
input with the curve made of the attack ramp 0→1 on `[0, a)`, the decay
ramp 1→sustain on `[a, a+de)`, the constant sustain on `[a+de, a+de+s)`,
and the release ramp sustain→0 on the final `r` samples measured backward
from the buffer's end. -/
theorem apply_envelope_four_segments {K : Type*} [LinearOrderedField K] [FloorRing K]
    (audio : List K) (attack decay sustain release : K)
    (h0a : 0 ≤ attack) (h0d : 0 ≤ decay) (h0r : 0 ≤ release)
    (hA : durSamples attack ≤ audio.length)
    (hAD : durSamples attack + durSamples decay ≤ audio.length)
    (hR : durSamples release ≤ audio.length) :
    apply_envelope audio attack decay sustain release =
      some ((List.range audio.length).map fun k =>
        audio.getD k 0 * envSpecCurve audio.length (durSamples attack)
          (durSamples decay) (durSamples release) sustain k) :=
  apply_envelope_eq audio attack decay sustain release hA hAD hR

/-- Witness for C6 at the buffer `[2, 3, 5]` with one-sample attack, decay
and release stages. -/
theorem apply_envelope_four_segments_witness :
    ((0 : ℚ) ≤ 1/44100 ∧ (0 : ℚ) ≤ 1/44100 ∧ (0 : ℚ) ≤ 1/44100 ∧
      durSamples ((1 : ℚ)/44100) ≤ [(2 : ℚ), 3, 5].length ∧
      durSamples ((1 : ℚ)/44100) + durSamples ((1 : ℚ)/44100) ≤ [(2 : ℚ), 3, 5].length ∧
      durSamples ((1 : ℚ)/44100) ≤ [(2 : ℚ), 3, 5].length) ∧
      apply_envelope [(2 : ℚ), 3, 5] (1/44100) (1/44100) (1/2) (1/44100) =
        some ((List.range [(2 : ℚ), 3, 5].length).map fun k =>
          [(2 : ℚ), 3, 5].getD k 0 *
            envSpecCurve [(2 : ℚ), 3, 5].length (durSamples ((1 : ℚ)/44100))
              (durSamples ((1 : ℚ)/44100)) (durSamples ((1 : ℚ)/44100)) (1/2) k) :=
  have hd : durSamples ((1 : ℚ)/44100) = 1 := by
    simp only [durSamples, pyInt, SAMPLE_RATE]
    norm_num
  have hA : durSamples ((1 : ℚ)/44100) ≤ [(2 : ℚ), 3, 5].length := by
    rw [hd]
    norm_num
  have hAD : durSamples ((1 : ℚ)/44100) + durSamples ((1 : ℚ)/44100) ≤
      [(2 : ℚ), 3, 5].length := by
    rw [hd]
    norm_num
  ⟨⟨by norm_num, by norm_num, by norm_num, hA, hAD, hA⟩,
    apply_envelope_four_segments [(2 : ℚ), 3, 5] (1/44100) (1/44100) (1/2) (1/44100)
      (by norm_num) (by norm_num) (by norm_num) hA hAD hA⟩

/-- C7 counterexample: with `attack = 1e-5 > 0` seconds the attack sample
count `int(attack*44100)` is zero, so no attack ramp is written and the
output's sample 0 is `sustain * audio[0] = 1/2`, not 0: a positive attack
duration does not guarantee a zero first sample. -/
theorem envelope_attack_zero_counterexample :
    (0 : ℚ) < 1/100000 ∧
      apply_envelope [(1 : ℚ)] (1/100000) 0 (1/2) 0 = some [(1 : ℚ)/2] ∧
      ((1 : ℚ)/2) ≠ 0 := by
  refine ⟨by norm_num, ?_, by norm_num⟩
  have hd0 : durSamples ((1 : ℚ)/100000) = 0 := by
    simp only [durSamples, pyInt, SAMPLE_RATE]
    norm_num
  have hz : durSamples (0 : ℚ) = 0 := by
    simp only [durSamples, pyInt, SAMPLE_RATE]
    norm_num
  rw [apply_envelope_eq [(1 : ℚ)] (1/100000) 0 (1/2) 0 (by rw [hd0]; norm_num)
    (by rw [hd0, hz]; norm_num) (by rw [hz]; norm_num)]
  congr 1
  rw [hd0, hz]
  simp only [List.length_cons, List.length_nil, List.range_succ, List.range_zero,
    List.nil_append, List.map_cons, List.map_nil, envSpecCurve]
  norm_num [rampAt]

/-- C7 (amended): when the call succeeds, the output's sample 0 is 0
provided the attack stage is at least one sample long and the release slice
does not reach back to sample 0; and the final sample is 0 provided the
release stage is at least two samples long (a one-sample release writes
`linspace(sustain, 0, 1) = [sustain]`, whose single value is the sustain
level, not 0). -/
theorem envelope_endpoint_zeros {K : Type*} [LinearOrderedField K] [FloorRing K]
    (audio : List K) (attack decay sustain release : K) (out : List K)
    (h0a : 0 ≤ attack) (h0d : 0 ≤ decay) (h0r : 0 ≤ release)
    (hsome : apply_envelope audio attack decay sustain release = some out) :
    (1 ≤ durSamples attack → durSamples release < audio.length →
      out.getD 0 0 = 0) ∧
    (2 ≤ durSamples release → out.getD (audio.length - 1) 0 = 0) := by
  set L := audio.length with hL
  set a := durSamples attack with ha
  set de := durSamples decay with hde
  set r := durSamples release with hr
  have hA : a ≤ L := by
    by_contra hc
    rw [apply_envelope_eq_none audio attack decay sustain release
      (Or.inl (by omega))] at hsome
    exact Option.noConfusion hsome
  have hAD : a + de ≤ L := by
    by_contra hc
    rw [apply_envelope_eq_none audio attack decay sustain release
      (Or.inr (Or.inl (by omega)))] at hsome
    exact Option.noConfusion hsome
  have hR : r ≤ L := by
    by_contra hc
    rw [apply_envelope_eq_none audio attack decay sustain release
      (Or.inr (Or.inr (by omega)))] at hsome
    exact Option.noConfusion hsome
  rw [apply_envelope_eq audio attack decay sustain release hA hAD hR] at hsome
  have hout := Option.some.inj hsome
  constructor
  · intro hatt hrel
    have hL0 : 0 < L := by omega
    rw [← hout, List.getD_eq_getElem _ _ (by simpa using hL0),
      List.getElem_map, List.getElem_range]
    have hcurve : envSpecCurve L a de r sustain 0 = 0 := by
      rw [envSpecCurve_of_not_release (by omega), if_pos (by omega)]
      unfold rampAt
      by_cases h1 : a ≤ 1
      · rw [if_pos h1]
      · rw [if_neg h1]
        simp
    rw [hcurve, mul_zero]
  · intro hrel
    have hL2 : 2 ≤ L := by omega
    rw [← hout, List.getD_eq_getElem _ _ (by simp; omega),
      List.getElem_map, List.getElem_range]
    have hcurve : envSpecCurve L a de r sustain (L - 1) = 0 := by
      rw [envSpecCurve_release (by omega) (by omega),
        (by omega : L - 1 - (L - r) = r - 1)]
      unfold rampAt
      rw [if_neg (by omega)]
      have hcast : ((r - 1 : ℕ) : K) = (r : K) - 1 := by
        push_cast [Nat.cast_sub (by omega : 1 ≤ r)]
        ring
      have hne : ((r : K) - 1) ≠ 0 := by
        have h2 : (1 : K) < (r : K) := by exact_mod_cast (by omega : 1 < r)
        exact sub_ne_zero_of_ne (ne_of_gt h2)
      rw [hcast, zero_sub, neg_mul, neg_div, mul_div_assoc, div_self hne]
      ring
    rw [hcurve, mul_zero]

/-- Witness for the amended C7: buffer `[2, 3, 5]`, a one-sample attack and
a two-sample release; the returned buffer has first and last sample 0. -/
theorem envelope_endpoint_zeros_witness :
    ((0 : ℚ) ≤ 1/44100 ∧ (0 : ℚ) ≤ 0 ∧ (0 : ℚ) ≤ 1/22050 ∧
      apply_envelope [(2 : ℚ), 3, 5] (1/44100) 0 (1/2) (1/22050) =
        some ((List.range [(2 : ℚ), 3, 5].length).map fun k =>
          [(2 : ℚ), 3, 5].getD k 0 *
            envSpecCurve [(2 : ℚ), 3, 5].length (durSamples ((1 : ℚ)/44100))
              (durSamples (0 : ℚ)) (durSamples ((1 : ℚ)/22050)) (1/2) k)) ∧
      ((1 ≤ durSamples ((1 : ℚ)/44100) →
          durSamples ((1 : ℚ)/22050) < [(2 : ℚ), 3, 5].length →
          (((List.range [(2 : ℚ), 3, 5].length).map fun k =>
            [(2 : ℚ), 3, 5].getD k 0 *
              envSpecCurve [(2 : ℚ), 3, 5].length (durSamples ((1 : ℚ)/44100))
                (durSamples (0 : ℚ)) (durSamples ((1 : ℚ)/22050)) (1/2) k).getD 0 0 = 0)) ∧
        (2 ≤ durSamples ((1 : ℚ)/22050) →
          (((List.range [(2 : ℚ), 3, 5].length).map fun k =>
            [(2 : ℚ), 3, 5].getD k 0 *
              envSpecCurve [(2 : ℚ), 3, 5].length (durSamples ((1 : ℚ)/44100))
                (durSamples (0 : ℚ)) (durSamples ((1 : ℚ)/22050)) (1/2) k).getD
              ([(2 : ℚ), 3, 5].length - 1) 0 = 0))) :=
  have hd1 : durSamples ((1 : ℚ)/44100) = 1 := by
    simp only [durSamples, pyInt, SAMPLE_RATE]
    norm_num
  have hd2 : durSamples ((1 : ℚ)/22050) = 2 := by
    simp only [durSamples, pyInt, SAMPLE_RATE]
    norm_num
    omega
  have hz : durSamples (0 : ℚ) = 0 := by
    simp only [durSamples, pyInt, SAMPLE_RATE]
    norm_num
  have hsome : apply_envelope [(2 : ℚ), 3, 5] (1/44100) 0 (1/2) (1/22050) =
      some ((List.range [(2 : ℚ), 3, 5].length).map fun k =>
        [(2 : ℚ), 3, 5].getD k 0 *
          envSpecCurve [(2 : ℚ), 3, 5].length (durSamples ((1 : ℚ)/44100))
            (durSamples (0 : ℚ)) (durSamples ((1 : ℚ)/22050)) (1/2) k) :=
    apply_envelope_eq [(2 : ℚ), 3, 5] (1/44100) 0 (1/2) (1/22050)
      (by rw [hd1]; norm_num) (by rw [hd1, hz]; norm_num) (by rw [hd2]; norm_num)
  ⟨⟨by norm_num, by norm_num, by norm_num, hsome⟩,
    envelope_endpoint_zeros [(2 : ℚ), 3, 5] (1/44100) 0 (1/2) (1/22050) _
      (by norm_num) (by norm_num) (by norm_num) hsome⟩

/-- C10: `apply_envelope` is only total when each stage fits the buffer:
if `int(attack*44100) > L`, or `int(attack*44100) + int(decay*44100) > L`,
or `int(release*44100) > L`, a numpy slice assignment has mismatched
shapes and the call fails (`none`) instead of clamping the stages. -/
theorem apply_envelope_shape_error {K : Type*} [LinearOrderedField K] [FloorRing K]
    (audio : List K) (attack decay sustain release : K)
    (h0a : 0 ≤ attack) (h0d : 0 ≤ decay) (h0r : 0 ≤ release)
    (h : audio.length < durSamples attack ∨
         audio.length < durSamples attack + durSamples decay ∨
         audio.length < durSamples release) :
    apply_envelope audio attack decay sustain release = none :=
  apply_envelope_eq_none audio attack decay sustain release h

/-- Witness for C10: a two-sample attack on a one-sample buffer fails. -/
theorem apply_envelope_shape_error_witness :
    ((0 : ℚ) ≤ 1/22050 ∧ (0 : ℚ) ≤ 0 ∧ (0 : ℚ) ≤ 0 ∧
      [(1 : ℚ)].length < durSamples ((1 : ℚ)/22050)) ∧
      apply_envelope [(1 : ℚ)] (1/22050) 0 (1/2) 0 = none :=
  have hd : durSamples ((1 : ℚ)/22050) = 2 := by
    simp only [durSamples, pyInt, SAMPLE_RATE]
    norm_num
    omega
  have hlt : [(1 : ℚ)].length < durSamples ((1 : ℚ)/22050) := by
    rw [hd]
    norm_num
  ⟨⟨by norm_num, by norm_num, by norm_num, hlt⟩,
    apply_envelope_shape_error [(1 : ℚ)] (1/22050) 0 (1/2) 0
      (by norm_num) (by norm_num) (by norm_num) (Or.inl hlt)⟩

/-- `np.linspace(0, d, n, endpoint=False)` as the oscillators use it: `n`
evenly spaced values `p + (q - p) * i / n`, the endpoint excluded. -/
def linspaceF {K : Type*} [LinearOrderedField K] (p q : K) (n : ℕ) : List K :=
  (List.range n).map fun i : ℕ => p + (q - p) * (i : K) / (n : K)

/-- `generate_sine_wave(freq, duration, sample_rate)` (lines 16-19):
`sin(2 pi freq t)` over `int(sample_rate * duration)` linspace times. -/
noncomputable def generate_sine_wave (freq duration : ℝ) (sample_rate : ℝ := 44100) :
    List ℝ :=
  (linspaceF 0 duration (pyInt (sample_rate * duration)).toNat).map
    fun t => Real.sin (2 * Real.pi * freq * t)

/-- `generate_square_wave` (lines 21-24): `np.sign(sin(2 pi freq t))`;
`np.sign` is `Real.sign` (negative → -1, zero → 0, positive → 1). -/
noncomputable def generate_square_wave (freq duration : ℝ) (sample_rate : ℝ := 44100) :
    List ℝ :=
  (linspaceF 0 duration (pyInt (sample_rate * duration)).toNat).map
    fun t => Real.sign (Real.sin (2 * Real.pi * freq * t))

/-- `generate_sawtooth_wave` (lines 26-29): `2 * (t*freq - floor(0.5 + t*freq))`. -/
noncomputable def generate_sawtooth_wave (freq duration : ℝ) (sample_rate : ℝ := 44100) :
    List ℝ :=
  (linspaceF 0 duration (pyInt (sample_rate * duration)).toNat).map
    fun t => 2 * (t * freq - (⌊(0.5 : ℝ) + t * freq⌋ : ℤ))

/-- C5 counterexample: for `sr = 2`, `d = 5/4` (so `sr*d = 5/2` is not an
integer) the sawtooth's sample 1 is taken at the linspace time
`1 * d / floor(sr*d) = 5/8`, giving `-3/4`, while the claimed grid
`t_1 = 1/sr = 1/2` gives `-1`: sample `i` is not the waveform at `i/sr`. -/
theorem oscillator_grid_counterexample :
    (generate_sawtooth_wave 1 (5/4) 2).get? 1 = some (-(3/4)) ∧
      2 * (((1 : ℝ)/2) * 1 - (⌊(0.5 : ℝ) + ((1 : ℝ)/2) * 1⌋ : ℤ)) = -1 ∧
      ((-(3/4) : ℝ)) ≠ -1 := by
  have hpy : (pyInt ((2 : ℝ) * (5/4))).toNat = 2 := by
    simp only [pyInt]
    rw [if_pos (by norm_num : (0 : ℝ) ≤ 2 * (5/4))]
    norm_num
    omega
  refine ⟨?_, by norm_num, by norm_num⟩
  simp only [generate_sawtooth_wave, linspaceF, hpy]
  rw [List.get?_map, List.get?_map, List.get?_range (by norm_num : 1 < 2)]
  simp only [Option.map_some']
  norm_num

/-- C5 (amended): each oscillator produces exactly `floor(sr*d)` samples;
the sample times are the endpoint-free linspace grid `t_i = i*d/floor(sr*d)`,
which coincides with the claimed `t_i = i/sr` — making sample `i` the
waveform at `i/sr` — exactly when `sr*d` is an integer, as it is at every
oscillator call in the program. -/
theorem oscillator_length_and_grid (f d sr : ℝ)
    (hf : 0 < f) (hd : 0 < d) (hsr : 0 < sr) :
    ((generate_sine_wave f d sr).length = (⌊sr * d⌋).toNat ∧
     (generate_square_wave f d sr).length = (⌊sr * d⌋).toNat ∧
     (generate_sawtooth_wave f d sr).length = (⌊sr * d⌋).toNat) ∧
    ((sr * d) = ((⌊sr * d⌋ : ℤ) : ℝ) →
      (generate_sine_wave f d sr =
        (List.range (⌊sr * d⌋).toNat).map fun i : ℕ =>
          Real.sin (2 * Real.pi * f * ((i : ℝ) / sr))) ∧
      (generate_square_wave f d sr =
        (List.range (⌊sr * d⌋).toNat).map fun i : ℕ =>
          Real.sign (Real.sin (2 * Real.pi * f * ((i : ℝ) / sr)))) ∧
      (generate_sawtooth_wave f d sr =
        (List.range (⌊sr * d⌋).toNat).map fun i : ℕ =>
          2 * (((i : ℝ) / sr) * f - (⌊(0.5 : ℝ) + ((i : ℝ) / sr) * f⌋ : ℤ)))) := by
  have hpy : pyInt (sr * d) = ⌊sr * d⌋ := by
    simp only [pyInt]
    rw [if_pos (by positivity)]
  constructor
  · refine ⟨?_, ?_, ?_⟩ <;>
      simp [generate_sine_wave, generate_square_wave, generate_sawtooth_wave,
        linspaceF, hpy]
  · intro hint
    have ht : ∀ i : ℕ, (0 : ℝ) + (d - 0) * (i : ℝ) / (((⌊sr * d⌋).toNat : ℕ) : ℝ) =
        (i : ℝ) / sr := by
      intro i
      have h0 : (0 : ℤ) ≤ ⌊sr * d⌋ := Int.floor_nonneg.mpr (by positivity)
      have hN : (((⌊sr * d⌋).toNat : ℕ) : ℝ) = sr * d := by
        have : (((⌊sr * d⌋).toNat : ℕ) : ℝ) = ((⌊sr * d⌋ : ℤ) : ℝ) := by
          exact_mod_cast congrArg (fun z : ℤ => (z : ℝ)) (Int.toNat_of_nonneg h0)
        rw [this]
        exact hint.symm
      rw [hN, zero_add, sub_zero]
      field_simp
      ring
    refine ⟨?_, ?_, ?_⟩ <;>
    · simp only [generate_sine_wave, generate_square_wave, generate_sawtooth_wave,
        linspaceF, hpy, List.map_map]
      apply List.map_congr_left
      intro i _
      simp only [Function.comp_apply]
      rw [ht i]

/-- Witness for the amended C5 at `f = d = sr = 1`. -/
theorem oscillator_length_and_grid_witness :
    ((0 : ℝ) < 1 ∧ (0 : ℝ) < 1 ∧ (0 : ℝ) < 1) ∧
      (((generate_sine_wave 1 1 1).length = (⌊(1 : ℝ) * 1⌋).toNat ∧
        (generate_square_wave 1 1 1).length = (⌊(1 : ℝ) * 1⌋).toNat ∧
        (generate_sawtooth_wave 1 1 1).length = (⌊(1 : ℝ) * 1⌋).toNat) ∧
      (((1 : ℝ) * 1) = ((⌊(1 : ℝ) * 1⌋ : ℤ) : ℝ) →
        (generate_sine_wave 1 1 1 =
          (List.range (⌊(1 : ℝ) * 1⌋).toNat).map fun i : ℕ =>
            Real.sin (2 * Real.pi * 1 * ((i : ℝ) / 1))) ∧
        (generate_square_wave 1 1 1 =
          (List.range (⌊(1 : ℝ) * 1⌋).toNat).map fun i : ℕ =>
            Real.sign (Real.sin (2 * Real.pi * 1 * ((i : ℝ) / 1)))) ∧
        (generate_sawtooth_wave 1 1 1 =
          (List.range (⌊(1 : ℝ) * 1⌋).toNat).map fun i : ℕ =>
            2 * (((i : ℝ) / 1) * 1 - (⌊(0.5 : ℝ) + ((i : ℝ) / 1) * 1⌋ : ℤ))))) :=
  ⟨⟨by norm_num, by norm_num, by norm_num⟩,
    oscillator_length_and_grid 1 1 1 (by norm_num) (by norm_num) (by norm_num)⟩

/-- C8: every sample of the sine, square and sawtooth oscillators lies in
`[-1, 1]`; every square-wave sample lies in `{-1, 0, +1}`; and a square
sample whose underlying sine value is exactly zero is 0 (`np.sign(0) = 0`). -/
theorem oscillator_bounded (f d sr : ℝ) (hf : 0 < f) (hd : 0 < d) :
    (∀ x ∈ generate_sine_wave f d sr, |x| ≤ 1) ∧
    (∀ x ∈ generate_square_wave f d sr, |x| ≤ 1) ∧
    (∀ x ∈ generate_sawtooth_wave f d sr, |x| ≤ 1) ∧
    (∀ x ∈ generate_square_wave f d sr, x = -1 ∨ x = 0 ∨ x = 1) ∧
    (∀ (i : ℕ) (t : ℝ),
      (linspaceF 0 d (pyInt (sr * d)).toNat).get? i = some t →
      Real.sin (2 * Real.pi * f * t) = 0 →
      (generate_square_wave f d sr).get? i = some 0) := by
  have hsign : ∀ y : ℝ, Real.sign y = -1 ∨ Real.sign y = 0 ∨ Real.sign y = 1 := by
    intro y
    rcases lt_trichotomy y 0 with h | h | h
    · exact Or.inl (Real.sign_of_neg h)
    · exact Or.inr (Or.inl (by rw [h, Real.sign_zero]))
    · exact Or.inr (Or.inr (Real.sign_of_pos h))
  refine ⟨?_, ?_, ?_, ?_, ?_⟩
  · intro x hx
    obtain ⟨t, _, rfl⟩ := List.mem_map.mp hx
    exact abs_le.mpr ⟨Real.neg_one_le_sin _, Real.sin_le_one _⟩
  · intro x hx
    obtain ⟨t, _, rfl⟩ := List.mem_map.mp hx
    rcases hsign (Real.sin (2 * Real.pi * f * t)) with h | h | h <;>
      rw [h] <;> norm_num
  · intro x hx
    obtain ⟨t, _, rfl⟩ := List.mem_map.mp hx
    have h1 := Int.floor_le ((0.5 : ℝ) + t * f)
    have h2 := Int.lt_floor_add_one ((0.5 : ℝ) + t * f)
    rw [abs_le]
    constructor <;> linarith
  · intro x hx
    obtain ⟨t, _, rfl⟩ := List.mem_map.mp hx
    exact hsign _
  · intro i t ht hsin
    simp only [generate_square_wave]
    rw [List.get?_map, ht, Option.map_some', hsin, Real.sign_zero]

/-- Witness for C8 at `f = d = sr = 1`. -/
theorem oscillator_bounded_witness :
    ((0 : ℝ) < 1 ∧ (0 : ℝ) < 1) ∧
      ((∀ x ∈ generate_sine_wave 1 1 1, |x| ≤ 1) ∧
       (∀ x ∈ generate_square_wave 1 1 1, |x| ≤ 1) ∧
       (∀ x ∈ generate_sawtooth_wave 1 1 1, |x| ≤ 1) ∧
       (∀ x ∈ generate_square_wave 1 1 1, x = -1 ∨ x = 0 ∨ x = 1) ∧
       (∀ (i : ℕ) (t : ℝ),
         (linspaceF 0 1 (pyInt ((1 : ℝ) * 1)).toNat).get? i = some t →
         Real.sin (2 * Real.pi * 1 * t) = 0 →
         (generate_square_wave 1 1 1).get? i = some 0)) :=
  ⟨⟨by norm_num, by norm_num⟩,
    oscillator_bounded 1 1 1 (by norm_num) (by norm_num)⟩

/-- The pre-normalization mix of `generate_explosion_sound` (lines 134-149)
with the uniform random noise array abstracted as a function of the sample
index: sample `i` is `(noise_i * 0.5 + tone_i * 0.5) * exp(-4 t_i / 0.3)`
with `tone_i = sin(2 pi (200 exp(-5 t_i / 0.3)) t_i)` and `t_i` the i-th
endpoint-free linspace time over `int(44100 * 0.3)` samples. -/
noncomputable def explosion_premix (noise : ℕ → ℝ) : List ℝ :=
  (List.range (pyInt ((44100 : ℝ) * 0.3)).toNat).map fun i =>
    let t := (linspaceF 0 0.3 (pyInt ((44100 : ℝ) * 0.3)).toNat).getD i 0
    (noise i * 0.5 +
        Real.sin (2 * Real.pi * (200 * Real.exp (-5 * t / 0.3)) * t) * 0.5) *
      Real.exp (-4 * t / 0.3)

/-- `generate_explosion_sound` (lines 134-154): the noise/tone mix shaped by
its decay envelope, normalized to peak 0.7. -/
noncomputable def generate_explosion_sound (noise : ℕ → ℝ) : Option (List ℝ) :=
  normalize_step (explosion_premix noise) 0.7

lemma explosion_samples : (pyInt ((44100 : ℝ) * 0.3)).toNat = 13230 := by
  simp only [pyInt]
  rw [if_pos (by norm_num : (0 : ℝ) ≤ 44100 * 0.3)]
  norm_num
  omega

lemma explosion_premix_get_zero (noise : ℕ → ℝ) :
    (explosion_premix noise).get? 0 = some (noise 0 * 0.5) := by
  have ht : (linspaceF 0 (0.3 : ℝ) (pyInt ((44100 : ℝ) * 0.3)).toNat).getD 0 0 = 0 := by
    simp only [linspaceF, explosion_samples]
    rw [List.getD_eq_getElem _ _ (by simp)]
    simp
  simp only [explosion_premix]
  rw [List.get?_map, List.get?_range (by rw [explosion_samples]; norm_num),
    Option.map_some']
  rw [ht]
  norm_num

/-- C9: the explosion generator's output has exactly `floor(44100*0.3)`
samples and peak exactly 0.7, for every value of the random noise input
(whenever the pre-normalization mix is not identically zero, which holds
almost surely); hence any two runs agree in length and peak and differ only
in their noise-driven sample values. -/
theorem explosion_length_peak (noiseA noiseB : ℕ → ℝ)
    (hA : peakAbs (explosion_premix noiseA) ≠ 0)
    (hB : peakAbs (explosion_premix noiseB) ≠ 0) :
    ∃ oA oB, generate_explosion_sound noiseA = some oA ∧
      generate_explosion_sound noiseB = some oB ∧
      oA.length = (⌊(44100 : ℝ) * 0.3⌋).toNat ∧
      oB.length = oA.length ∧
      peakAbs oA = 0.7 ∧ peakAbs oB = peakAbs oA := by
  have hlen : ∀ noise : ℕ → ℝ, (explosion_premix noise).length =
      (⌊(44100 : ℝ) * 0.3⌋).toNat := by
    intro noise
    simp only [explosion_premix, List.length_map, List.length_range, pyInt]
    rw [if_pos (by norm_num : (0 : ℝ) ≤ 44100 * 0.3)]
  have hgen : ∀ noise : ℕ → ℝ, peakAbs (explosion_premix noise) ≠ 0 →
      ∃ o, generate_explosion_sound noise = some o ∧
        o.length = (⌊(44100 : ℝ) * 0.3⌋).toNat ∧ peakAbs o = 0.7 := by
    intro noise hp
    refine ⟨(explosion_premix noise).map
      (fun x => x / peakAbs (explosion_premix noise) * 0.7), ?_, ?_, ?_⟩
    · simp only [generate_explosion_sound, normalize_step]
      rw [if_neg hp]
    · rw [List.length_map, hlen]
    · exact peakAbs_normalize hp (by norm_num)
  obtain ⟨oA, hA1, hA2, hA3⟩ := hgen noiseA hA
  obtain ⟨oB, hB1, hB2, hB3⟩ := hgen noiseB hB
  exact ⟨oA, oB, hA1, hB1, hA2, by rw [hA2, hB2], hA3, by rw [hA3, hB3]⟩

/-- Witness for C9: two runs whose noise is constantly 1; the mix's sample 0
is `0.5`, so the pre-normalization peak is nonzero in both runs. -/
theorem explosion_length_peak_witness :
    (peakAbs (explosion_premix (fun _ => (1 : ℝ))) ≠ 0 ∧
      peakAbs (explosion_premix (fun _ => (1 : ℝ))) ≠ 0) ∧
      (∃ oA oB, generate_explosion_sound (fun _ => (1 : ℝ)) = some oA ∧
        generate_explosion_sound (fun _ => (1 : ℝ)) = some oB ∧
        oA.length = (⌊(44100 : ℝ) * 0.3⌋).toNat ∧
        oB.length = oA.length ∧
        peakAbs oA = 0.7 ∧ peakAbs oB = peakAbs oA) :=
  have hp : peakAbs (explosion_premix (fun _ => (1 : ℝ))) ≠ 0 := by
    have hmem : ((1 : ℝ) * 0.5) ∈ explosion_premix (fun _ => (1 : ℝ)) :=
      List.get?_mem (explosion_premix_get_zero (fun _ => (1 : ℝ)))
    have hle := abs_le_peakAbs hmem
    intro hz
    rw [hz] at hle
    have : |(1 : ℝ) * 0.5| = 0.5 := by norm_num
    linarith [hle, this ▸ hle]
  ⟨⟨hp, hp⟩, explosion_length_peak (fun _ => (1 : ℝ)) (fun _ => (1 : ℝ)) hp hp⟩

end GenerateAudio

